import Mathlib

/-!
Verification development for the LMP-Model repository: a DC optimal power
flow solver with Locational Marginal Price (LMP) calculation.

The Python source (src/data.py, src/func.py) is shallowly embedded here:
numbers become exact rationals, numpy arrays become total functions or
lists, Python dicts become association lists with last-write-wins insert,
and the external LP solver (scipy linprog) is modelled by an abstract
result record whose fields mirror scipy's OptimizeResult.
-/

namespace LMP

/-- A transmission line, embedding a line dict of the Python source.
`src`/`dst` embed the 'from'/'to' fields; `length` is optional because
the source reads it as `line.get('length', 100)`. -/
structure Line where
  src : String
  dst : String
  reactance : ℚ
  capacity : ℚ
  length : Option ℚ
  deriving DecidableEq

instance : Inhabited Line := ⟨⟨"", "", 1, 0, none⟩⟩

/-- The network data (data.py `NetworkData`): an ordered node list, an
ordered line list, and per-node generation capacity / cost / consumption
dictionaries (total functions on node names). -/
structure Network where
  nodes : List String
  lines : List Line
  genCapacity : String → ℚ
  genCost : String → ℚ
  consumption : String → ℚ

/-- Number of nodes (`n_nodes = len(nodes)`). -/
def Network.n (net : Network) : ℕ := net.nodes.length

/-- Position of a node name in a node list (`nodes.index(name)`). -/
def idxFrom : List String → String → ℕ
  | [], _ => 0
  | t :: ts, s => if t = s then 0 else idxFrom ts s + 1

/-- Index of a node name in the network's node list. -/
def nodeIdx (net : Network) (s : String) : ℕ := idxFrom net.nodes s

/-- Node name at an index (used to read the per-node dicts by position). -/
def nodeAt (net : Network) (k : ℕ) : String := net.nodes.getD k ""

/-- Generation capacity vector indexed by node position. -/
def capVec (net : Network) (k : ℕ) : ℚ := net.genCapacity (nodeAt net k)

/-- Generation cost vector indexed by node position. -/
def costVec (net : Network) (k : ℕ) : ℚ := net.genCost (nodeAt net k)

/-- Consumption vector indexed by node position. -/
def consVec (net : Network) (k : ℕ) : ℚ := net.consumption (nodeAt net k)

/-! ## Python dict semantics

The solver returns dicts keyed by formatted line-id strings.  A Python
dict assignment `d[k] = v` replaces the value at an existing key (keeping
its position) or appends a new entry; we embed dicts as association
lists with that insert. -/

/-- A single Python dict assignment `d[k] = v`. -/
def pyInsert (d : List (String × α)) (k : String) (v : α) : List (String × α) :=
  if d.any (fun p => p.1 = k) then
    d.map (fun p => if p.1 = k then (k, v) else p)
  else d ++ [(k, v)]

/-- Building a dict from a sequence of assignments (dict comprehension). -/
def pyDict (l : List (String × α)) : List (String × α) :=
  l.foldl (fun d p => pyInsert d p.1 p.2) []

/-- Dict lookup `d[k]` (`none` when the key is absent). -/
def pyGet (d : List (String × α)) (k : String) : Option α :=
  (d.find? (fun p => p.1 = k)).map (·.2)

/-- Number of entries of a dict carrying key `k`. -/
def countKey (d : List (String × α)) (k : String) : ℕ :=
  (d.filter (fun p => p.1 = k)).length

/-- Sum of the values of a rational-valued dict. -/
def dictValuesSum (d : List (String × ℚ)) : ℚ :=
  (d.map (·.2)).sum

/-! ## Executable linear algebra

numpy matrices are modelled as total functions `ℕ → ℕ → ℚ` together with
an explicit size.  `np.linalg.inv` needs an executable determinant and
adjugate (Mathlib's `Matrix.det` does not evaluate), defined by Laplace
expansion and proved equal to Mathlib's notions below. -/

/-- View of a sized function matrix as a Mathlib matrix. -/
def toMat (m : ℕ) (A : ℕ → ℕ → ℚ) : Matrix (Fin m) (Fin m) ℚ :=
  Matrix.of fun i j => A i.val j.val

/-- Delete row `r` and column `c` of a function matrix. -/
def subAt (A : ℕ → ℕ → ℚ) (r c : ℕ) : ℕ → ℕ → ℚ :=
  fun p q => A (if p < r then p else p + 1) (if q < c then q else q + 1)

/-- Executable determinant of the leading `m × m` block, by Laplace
expansion along the first row. -/
def detN : ℕ → (ℕ → ℕ → ℚ) → ℚ
  | 0, _ => 1
  | m + 1, A =>
    ∑ j ∈ Finset.range (m + 1), (-1) ^ j * A 0 j * detN m (subAt A 0 j)

/-- Executable adjugate (cofactor transpose) of the leading block. -/
def adjN : ℕ → (ℕ → ℕ → ℚ) → ℕ → ℕ → ℚ
  | 0, _ => fun _ _ => 0
  | k + 1, A => fun i j => (-1) ^ (j + i) * detN k (subAt A j i)

/-- Errors escaping the power-flow pipeline: the singular-matrix error
raised by `np.linalg.inv` on a disconnected reduced network. -/
inductive PFError
  | singularMatrix
  deriving DecidableEq

/-- Model of `np.linalg.inv` on the leading `m × m` block: the exact
inverse when the matrix is invertible, and `none` (a raised
`LinAlgError`) when it is singular. -/
def npInv (m : ℕ) (A : ℕ → ℕ → ℚ) : Option (ℕ → ℕ → ℚ) :=
  if detN m A = 0 then none
  else some (fun i j => (detN m A)⁻¹ * adjN m A i j)

/-! ## PTDF construction (func.py `_build_ptdf_matrix`) -/

/-- One numpy in-place update `B[p][q] += d` on a matrix modelled as a
total function. -/
def upd (B : ℕ → ℕ → ℚ) (p q : ℕ) (d : ℚ) : ℕ → ℕ → ℚ :=
  fun a c => if a = p ∧ c = q then B a c + d else B a c

/-- The four susceptance updates one line contributes:
`B[i][i] += b; B[j][j] += b; B[i][j] -= b; B[j][i] -= b`. -/
def addLine (B : ℕ → ℕ → ℚ) (i j : ℕ) (b : ℚ) : ℕ → ℕ → ℚ :=
  upd (upd (upd (upd B i i b) j j b) i j (-b)) j i (-b)

/-- The susceptance matrix B assembled line by line from zero. -/
def susceptance (net : Network) : ℕ → ℕ → ℚ :=
  net.lines.foldl
    (fun B L => addLine B (nodeIdx net L.src) (nodeIdx net L.dst) (1 / L.reactance))
    (fun _ _ => 0)

/-- The reduced susceptance matrix `B[1:,1:]` (slack row/col 0 removed),
as a function matrix of size `net.n - 1`. -/
def BredF (net : Network) : ℕ → ℕ → ℚ :=
  fun p q => susceptance net (p + 1) (q + 1)

/-- The reduced susceptance matrix as a Mathlib matrix. -/
def Bred (net : Network) : Matrix (Fin (net.n - 1)) (Fin (net.n - 1)) ℚ :=
  toMat (net.n - 1) (BredF net)

/-- Reassembling the full `B_inv`: zero row/column 0 (and zero outside
the node range), the inverse of the reduced matrix elsewhere. -/
def reassemble (n : ℕ) (M : ℕ → ℕ → ℚ) : ℕ → ℕ → ℚ :=
  fun p q =>
    if 0 < p ∧ p < n ∧ 0 < q ∧ q < n then M (p - 1) (q - 1) else 0

/-- `B_inv` computation: inversion is attempted only when `n_nodes > 1`,
and a singular reduced matrix raises. -/
def buildBinv (net : Network) : Except PFError (ℕ → ℕ → ℚ) :=
  if 1 < net.n then
    match npInv (net.n - 1) (BredF net) with
    | none => .error .singularMatrix
    | some M => .ok (reassemble net.n M)
  else .ok (fun _ _ => 0)

/-- The PTDF rows: `PTDF[l][n] = (1/x_l) * (B_inv[i][n] - B_inv[j][n])`. -/
def ptdfRows (net : Network) (Binv : ℕ → ℕ → ℚ) : List (ℕ → ℚ) :=
  net.lines.map (fun L =>
    fun k =>
      (1 / L.reactance) *
        (Binv (nodeIdx net L.src) k - Binv (nodeIdx net L.dst) k))

/-- `_build_ptdf_matrix`: the full PTDF build, propagating the
singular-matrix error. -/
def buildPtdf (net : Network) : Except PFError (List (ℕ → ℚ)) :=
  (buildBinv net).map (fun Binv => ptdfRows net Binv)

/-- Dot product over the first `n` coordinates (numpy row-vector product). -/
def dot (n : ℕ) (f g : ℕ → ℚ) : ℚ :=
  ∑ k ∈ Finset.range n, f k * g k

/-- Entry `(l, k)` of the built PTDF (0 when the build failed), used to
evaluate concrete instances. -/
def ptdfEval (net : Network) (l k : ℕ) : ℚ :=
  (((buildPtdf net).toOption.getD []).getD l (fun _ => 0)) k

/-! ## LP solver interface (scipy.optimize.linprog)

The LP solve itself is external; `LPResult` mirrors the fields of
scipy's OptimizeResult that func.py reads.  `ineqMarginals` models
`result.ineqlin.marginals` (the dual values of the stacked
`[ptdf; -ptdf]` flow constraints), `eqMarginals` models
`result.eqlin.marginals`; `none` models the attribute being absent. -/

structure LPResult where
  success : Bool
  x : ℕ → ℚ
  ineqMarginals : Option (List ℚ)
  eqMarginals : Option (List ℚ)
  objective : ℚ

/-- Total consumption `sum(consumption.values())`. -/
def totalDemand (net : Network) : ℚ := (net.nodes.map net.consumption).sum

/-- Total generation capacity summed over the nodes. -/
def totalGenCap (net : Network) : ℚ := (net.nodes.map net.genCapacity).sum

/-- Feasibility of the variant-A LP exactly as `solve` formulates it:
generation bounded by `[0, capacity]`, total generation equal to total
consumption, and both flow-limit rows per line. -/
def VariantAFeasible (net : Network) (ptdf : List (ℕ → ℚ)) : Prop :=
  ∃ g : ℕ → ℚ,
    (∀ k < net.n, 0 ≤ g k ∧ g k ≤ capVec net k) ∧
    (∑ k ∈ Finset.range net.n, g k) = totalDemand net ∧
    ∀ p ∈ net.lines.enum,
      dot net.n (ptdf.getD p.1 (fun _ => 0)) g ≤
          p.2.capacity + dot net.n (ptdf.getD p.1 (fun _ => 0)) (consVec net) ∧
        -dot net.n (ptdf.getD p.1 (fun _ => 0)) g ≤
          p.2.capacity - dot net.n (ptdf.getD p.1 (fun _ => 0)) (consVec net)

/-! ## LMP calculation (func.py `_calculate_lmp`, `_find_marginal_cost`) -/

/-- `_find_marginal_cost`: scan for a marginal generator; the first pass
takes the max cost over partially-loaded and at-capacity generators, the
second pass (entered only when the first found nothing) scans nodes with
generation above the 0.01 threshold. -/
def findMarginalCost (net : Network) (generation : ℕ → ℚ) (costs : ℕ → ℚ) : ℚ :=
  let m1 := (List.range net.n).foldl
    (fun m i =>
      if 0 < generation i ∧ generation i < capVec net i - 1/100 then max m (costs i)
      else if capVec net i - 1/100 ≤ generation i ∧ 1/100 < generation i then
        max m (costs i)
      else m) 0
  if m1 = 0 then
    (List.range net.n).foldl
      (fun m i =>
        if 1/100 < generation i then (if m = 0 then costs i else max m (costs i)) else m) 0
  else m1

/-- The energy price λ: the dual of the power-balance equality
constraint when available, otherwise the marginal-generator fallback. -/
def energyLam (net : Network) (r : LPResult) (costs : ℕ → ℚ) : ℚ :=
  match r.eqMarginals with
  | some em => em.getD 0 0
  | none => findMarginalCost net r.x costs

/-- `_calculate_lmp` as a vector of nodal prices: start every node at λ
and, for each line, subtract `(mu_upper - mu_lower) * PTDF[l, :]`
(`lmp_values -= congestion_price * ptdf[l, :]` in the source). -/
def calcLmp (net : Network) (r : LPResult) (ptdf : List (ℕ → ℚ)) (costs : ℕ → ℚ) : ℕ → ℚ :=
  match r.ineqMarginals with
  | some marg =>
    (List.range net.lines.length).foldl
      (fun v l => fun k =>
        v k - (marg.getD l 0 - marg.getD (net.lines.length + l) 0) *
          (ptdf.getD l (fun _ => 0)) k)
      (fun _ => energyLam net r costs)
  | none => fun _ => findMarginalCost net r.x costs

/-- The congestion adjustment the spec describes at node `k`: the sum
over all lines of `(mu_upper - mu_lower) * PTDF[l][k]`. -/
def congestionSum (nL : ℕ) (marg : List ℚ) (ptdf : List (ℕ → ℚ)) (k : ℕ) : ℚ :=
  ∑ l ∈ Finset.range nL, (marg.getD l 0 - marg.getD (nL + l) 0) * (ptdf.getD l (fun _ => 0)) k

/-! ## Line ids and generator flow decomposition -/

/-- `_line_id`: the formatted string "from→to". -/
def lineId (L : Line) : String := L.src ++ "→" ++ L.dst

/-- The inner dict of `_calculate_generator_flows` for one line: each
node with generation above 0.01 contributes `PTDF[l][n] * gen_n`. -/
def genFlowRow (net : Network) (generation : ℕ → ℚ) (row : ℕ → ℚ) : List (String × ℚ) :=
  pyDict ((net.nodes.enum).filterMap (fun p =>
    if 1/100 < generation p.1 then some (p.2, row p.1 * generation p.1) else none))

/-- `_calculate_generator_flows`: dict line-id → per-generator flows. -/
def calcGeneratorFlows (net : Network) (generation : ℕ → ℚ) (ptdf : List (ℕ → ℚ)) :
    List (String × List (String × ℚ)) :=
  pyDict ((net.lines.enum).map (fun p =>
    (lineId p.2, genFlowRow net generation (ptdf.getD p.1 (fun _ => 0)))))

/-! ## Infeasibility analysis (func.py `_analyze_infeasibility`)

The Python analysis appends formatted strings; we model each cause,
detail and suggestion structurally, keeping the numbers the strings
interpolate. -/

inductive Cause
  | insufficientGeneration
  | transmissionBottleneck (node : String)
  | networkConstraints
  deriving DecidableEq

inductive Detail
  | shortfall (totalDemand totalCap short : ℚ)
  | bottleneck (node : String) (needed demand localGen importCap : ℚ)
      (connected : List String)
  | generic
  deriving DecidableEq

inductive Suggestion
  | increaseCapacityOrReduceDemand (amount : ℚ)
  | relieveBottleneck (node : String)
  | generic
  deriving DecidableEq

structure Analysis where
  causes : List Cause
  details : List Detail
  suggestions : List Suggestion
  deriving DecidableEq

/-- Check 2 of the analysis, for one node: a demand node short of local
generation whose touching-line capacities cannot cover its import need
(only reported when check 1 did not already explain the deficit). -/
def bottleneckStep (net : Network) (a : Analysis) (node : String) : Analysis :=
  let demand := net.consumption node
  let localGen := net.genCapacity node
  if 0 < demand ∧ localGen < demand then
    let need := demand - localGen
    let importCap :=
      (net.lines.filter (fun L => L.dst = node ∨ L.src = node)).foldl
        (fun s L => s + L.capacity) 0
    let connected := net.lines.filterMap (fun L =>
      if L.dst = node then some (L.src ++ "→" ++ node)
      else if L.src = node then some (node ++ "→" ++ L.dst) else none)
    if importCap < need ∧ totalDemand net ≤ totalGenCap net then
      { causes := a.causes ++ [Cause.transmissionBottleneck node]
        details := a.details ++ [Detail.bottleneck node need demand localGen importCap connected]
        suggestions := a.suggestions ++ [Suggestion.relieveBottleneck node] }
    else a
  else a

/-- `_analyze_infeasibility`: check 1 (capacity shortfall), check 2 per
node (transmission bottleneck), check 3 (generic fallback). -/
def analyzeInfeasibility (net : Network) : Analysis :=
  let td := totalDemand net
  let tc := totalGenCap net
  let a1 : Analysis :=
    if tc < td then
      { causes := [Cause.insufficientGeneration]
        details := [Detail.shortfall td tc (td - tc)]
        suggestions := [Suggestion.increaseCapacityOrReduceDemand (td - tc)] }
    else ⟨[], [], []⟩
  let a2 := net.nodes.foldl (bottleneckStep net) a1
  if a2.causes = [] then
    { causes := a2.causes ++ [Cause.networkConstraints]
      details := a2.details ++ [Detail.generic]
      suggestions := a2.suggestions ++ [Suggestion.generic] }
  else a2

/-! ## The solver result (func.py `solve`) -/

structure SolveResult where
  feasible : Bool
  lmp : List (String × ℚ)
  generation : List (String × ℚ)
  flows : List (String × ℚ)
  capacities : List (String × ℚ)
  lengths : List (String × ℚ)
  generatorFlows : List (String × List (String × ℚ))
  totalCost : ℚ
  analysis : Option Analysis

/-- `solve`, parametrized by the abstract LP outcome: build the PTDF
(propagating a singular-matrix error), then either assemble the
infeasible result (zeroed economics, echoed capacities and lengths,
attached analysis) or extract generation, flows, LMPs and the
generator-flow decomposition. -/
def solve (net : Network) (lp : LPResult) : Except PFError SolveResult :=
  (buildPtdf net).map (fun ptdf =>
    if lp.success then
      let inj := fun k => lp.x k - consVec net k
      { feasible := true
        lmp := pyDict ((net.nodes.enum).map
          (fun p => (p.2, calcLmp net lp ptdf (costVec net) p.1)))
        generation := pyDict ((net.nodes.enum).map (fun p => (p.2, lp.x p.1)))
        flows := pyDict ((net.lines.enum).map
          (fun p => (lineId p.2, dot net.n (ptdf.getD p.1 (fun _ => 0)) inj)))
        capacities := pyDict (net.lines.map (fun L => (lineId L, L.capacity)))
        lengths := pyDict (net.lines.map (fun L => (lineId L, L.length.getD 100)))
        generatorFlows := calcGeneratorFlows net lp.x ptdf
        totalCost := lp.objective
        analysis := none }
    else
      { feasible := false
        lmp := pyDict (net.nodes.map (fun s => (s, 0)))
        generation := pyDict (net.nodes.map (fun s => (s, 0)))
        flows := pyDict (net.lines.map (fun L => (lineId L, 0)))
        capacities := pyDict (net.lines.map (fun L => (lineId L, L.capacity)))
        lengths := pyDict (net.lines.map (fun L => (lineId L, L.length.getD 100)))
        generatorFlows := pyDict (net.lines.map
          (fun L => (lineId L, ([] : List (String × ℚ)))))
        totalCost := 0
        analysis := some (analyzeInfeasibility net) })

/-! ## Line length update (data.py `update_line_length`)

The stored length is floor-clamped at 0.1 km, but the reactance is
recomputed from the raw argument: `lines[i]['length'] = max(0.1, x);
lines[i]['reactance'] = x * 0.001`. -/

def updateLineLength : List Line → ℕ → ℚ → List Line
  | [], _, _ => []
  | L :: ls, 0, x =>
    { L with length := some (max (1/10) x), reactance := x * (1/1000) } :: ls
  | L :: ls, n + 1, x => L :: updateLineLength ls n x

/-! ## The spec's PTDF algorithm (for the refinement claim)

These definitions follow the wording of the specification: the
susceptance matrix given by a per-line sum of update stencils, the
standard matrix inverse of the reduced matrix, and the PTDF formula. -/

/-- One line's contribution to the susceptance matrix at entry (p, q):
`B[i][i] += b; B[j][j] += b; B[i][j] -= b; B[j][i] -= b`. -/
def stencil (i j : ℕ) (b : ℚ) (p q : ℕ) : ℚ :=
  (if p = i ∧ q = i then b else 0) + (if p = j ∧ q = j then b else 0)
    - (if p = i ∧ q = j then b else 0) - (if p = j ∧ q = i then b else 0)

/-- The spec's susceptance matrix: starting from zero, each line adds
its stencil, so entry (p, q) is the sum of the per-line stencils. -/
def susceptanceSpec (net : Network) (p q : ℕ) : ℚ :=
  (net.lines.map (fun L =>
    stencil (nodeIdx net L.src) (nodeIdx net L.dst) (1 / L.reactance) p q)).sum

/-- The spec's reduced matrix (row/column 0 deleted). -/
def BredSpec (net : Network) : Matrix (Fin (net.n - 1)) (Fin (net.n - 1)) ℚ :=
  Matrix.of fun p q => susceptanceSpec net (p.val + 1) (q.val + 1)

/-- The spec's reassembled `B_inv`: zero row and column 0, the standard
matrix inverse of the reduced matrix elsewhere. -/
noncomputable def BinvSpec (net : Network) : ℕ → ℕ → ℚ :=
  fun p q =>
    if h : 0 < p ∧ p < net.n ∧ 0 < q ∧ q < net.n then
      (BredSpec net)⁻¹ ⟨p - 1, by omega⟩ ⟨q - 1, by omega⟩
    else 0

/-- The spec's PTDF rows:
`PTDF[l][n] = (1/reactance_l) * (B_inv[i][n] - B_inv[j][n])`. -/
noncomputable def ptdfSpecRows (net : Network) : List (ℕ → ℚ) :=
  net.lines.map (fun L => fun k =>
    (1 / L.reactance) *
      (BinvSpec net (nodeIdx net L.src) k - BinvSpec net (nodeIdx net L.dst) k))

/-! ## Witness extraction helpers -/

instance : Inhabited SolveResult := ⟨⟨false, [], [], [], [], [], [], 0, none⟩⟩

/-- The built PTDF rows extracted from the `Except` (default `[]`). -/
def buildPtdfD (net : Network) : List (ℕ → ℚ) :=
  (buildPtdf net).toOption.getD []

/-- The solver result extracted from the `Except`. -/
def solveD (net : Network) (lp : LPResult) : SolveResult :=
  (solve net lp).toOption.getD default

/-! ## The claim's fallback price and its correction (C9) -/

/-- The fallback energy price as the claim words it: prefer a generator
operating strictly between 0 and its capacity; otherwise the maximum
cost among nodes with positive generation; otherwise (no generation at
all) the first node's cost, or 0 with no nodes. -/
def claimedFallbackPrice (net : Network) (gen costs : ℕ → ℚ) : ℚ :=
  match (List.range net.n).find? (fun i => 0 < gen i ∧ gen i < capVec net i) with
  | some i => costs i
  | none =>
    match ((List.range net.n).filter (fun i => 0 < gen i)).map costs with
    | [] => if net.n = 0 then 0 else costs 0
    | c :: cs => cs.foldl max c

/-- What `_find_marginal_cost` actually computes (for nonnegative
costs): the maximum cost over partially-loaded and at-capacity
generators together, falling back to the maximum cost over nodes above
the generation threshold, and 0 with no generation. -/
def marginalCostAmended (net : Network) (gen costs : ℕ → ℚ) : ℚ :=
  let m1 := (((List.range net.n).filter (fun i =>
      (0 < gen i ∧ gen i < capVec net i - 1/100) ∨
        (capVec net i - 1/100 ≤ gen i ∧ 1/100 < gen i))).map costs).foldl max 0
  if m1 = 0 then
    (((List.range net.n).filter (fun i => 1/100 < gen i)).map costs).foldl max 0
  else m1

/-! ## Concrete networks and LP fixtures -/

/-- Two nodes, one line A→B of reactance 1: generator at A, load at B. -/
def net2 : Network where
  nodes := ["A", "B"]
  lines := [⟨"A", "B", 1, 100, some 100⟩]
  genCapacity := fun s => if s = "A" then 100 else 0
  genCost := fun s => if s = "A" then 20 else 0
  consumption := fun s => if s = "B" then 50 else 0

/-- The three-node ring of the application's default parameters,
with demand 150 at C (feasible). -/
def net3 : Network where
  nodes := ["A", "B", "C"]
  lines := [⟨"A", "B", 1/10, 100, some 100⟩, ⟨"B", "C", 1/10, 100, some 100⟩,
    ⟨"A", "C", 1/5, 50, some 200⟩]
  genCapacity := fun s => if s = "A" then 100 else if s = "B" then 50 else 0
  genCost := fun s => if s = "A" then 20 else if s = "B" then 40 else 0
  consumption := fun s => if s = "C" then 150 else 0

/-- The forced-scarcity scenario: capacities 100 and 50 against a
demand of 500 at node C. -/
def netScar : Network where
  nodes := ["A", "B", "C"]
  lines := [⟨"A", "B", 1/10, 100, some 100⟩, ⟨"B", "C", 1/10, 100, some 100⟩,
    ⟨"A", "C", 1/5, 50, some 200⟩]
  genCapacity := fun s => if s = "A" then 100 else if s = "B" then 50 else 0
  genCost := fun s => if s = "A" then 20 else if s = "B" then 40 else 0
  consumption := fun s => if s = "C" then 500 else 0

/-- A disconnected network: node C touches no line, so deleting the
slack bus leaves a singular reduced matrix. -/
def netDisc : Network where
  nodes := ["A", "B", "C"]
  lines := [⟨"A", "B", 1, 100, some 100⟩]
  genCapacity := fun s => if s = "A" then 100 else 0
  genCost := fun s => if s = "A" then 20 else 0
  consumption := fun _ => 0

/-- Two distinct parallel lines with the same from/to pair A→B. -/
def netDup : Network where
  nodes := ["A", "B"]
  lines := [⟨"A", "B", 1, 100, some 100⟩, ⟨"A", "B", 1, 60, some 50⟩]
  genCapacity := fun s => if s = "A" then 100 else 0
  genCost := fun s => if s = "A" then 20 else 0
  consumption := fun s => if s = "B" then 50 else 0

/-- Two nodes, no lines: A partially loaded at cost 20, B at capacity
at cost 40. -/
def netC9 : Network where
  nodes := ["A", "B"]
  lines := []
  genCapacity := fun s => if s = "A" then 100 else 50
  genCost := fun s => if s = "A" then 20 else 40
  consumption := fun _ => 0

/-- An infeasible LP outcome (`result.success` false). -/
def lpFail : LPResult where
  success := false
  x := fun _ => 0
  ineqMarginals := none
  eqMarginals := none
  objective := 0

/-- A successful LP outcome dispatching 50 MW at node 0, with slack
duals zero and energy dual 20. -/
def lpOk : LPResult where
  success := true
  x := fun k => if k = 0 then 50 else 0
  ineqMarginals := some [0, 0, 0, 0]
  eqMarginals := some [20]
  objective := 1000

/-- A successful LP outcome whose single line carries an upper-limit
dual of 1 (lower dual 0) and an energy dual of 5. -/
def lpC1 : LPResult where
  success := true
  x := fun k => if k = 0 then 50 else 0
  ineqMarginals := some [1, 0]
  eqMarginals := some [5]
  objective := 1000

/-! ## Theorems -/

theorem val_succAbove {k : ℕ} (r : Fin (k + 1)) (p : Fin k) :
    (r.succAbove p).val = if p.val < r.val then p.val else p.val + 1 := by
  rw [Fin.succAbove]
  by_cases h : Fin.castSucc p < r
  · rw [if_pos h, if_pos (by exact h)]
    rfl
  · rw [if_neg h, if_neg (by exact h)]
    rfl

theorem toMat_subAt (k : ℕ) (A : ℕ → ℕ → ℚ) (r c : ℕ) (hr : r < k + 1) (hc : c < k + 1) :
    toMat k (subAt A r c) =
      (toMat (k + 1) A).submatrix (Fin.succAbove ⟨r, hr⟩) (Fin.succAbove ⟨c, hc⟩) := by
  funext p q
  show subAt A r c p.val q.val = A ((Fin.succAbove ⟨r, hr⟩ p).val) ((Fin.succAbove ⟨c, hc⟩ q).val)
  rw [subAt, val_succAbove, val_succAbove]

/-- The executable determinant is the determinant. -/
theorem detN_eq : ∀ (m : ℕ) (A : ℕ → ℕ → ℚ), detN m A = (toMat m A).det
  | 0, A => by rw [Matrix.det_fin_zero]; rfl
  | m + 1, A => by
    rw [detN, Matrix.det_succ_row_zero,
      ← Fin.sum_univ_eq_sum_range (fun j => (-1) ^ j * A 0 j * detN m (subAt A 0 j))]
    refine Finset.sum_congr rfl fun j _ => ?_
    have h := toMat_subAt m A 0 j.val (Nat.succ_pos m) j.isLt
    rw [detN_eq m, h, Fin.eta]
    have h0 : (⟨0, Nat.succ_pos m⟩ : Fin (m + 1)) = 0 := rfl
    rw [h0, Fin.succAbove_zero]
    rfl

/-- The executable adjugate is the adjugate. -/
theorem adjN_eq {m : ℕ} (A : ℕ → ℕ → ℚ) (i j : Fin m) :
    adjN m A i.val j.val = (toMat m A).adjugate i j := by
  match m, i, j with
  | 0, i, _ => exact i.elim0
  | k + 1, i, j =>
    rw [Matrix.adjugate_fin_succ_eq_det_submatrix]
    show (-1) ^ (j.val + i.val) * detN k (subAt A j.val i.val) = _
    rw [detN_eq, toMat_subAt k A j.val i.val j.isLt i.isLt]

/-- `npInv` raises exactly on singular input, and otherwise computes the
textbook nonsingular inverse on all in-range entries. -/
theorem npInv_eq (m : ℕ) (A : ℕ → ℕ → ℚ) :
    (npInv m A = none ↔ (toMat m A).det = 0) ∧
      ∀ M, npInv m A = some M → ∀ i j : Fin m, M i.val j.val = (toMat m A)⁻¹ i j := by
  constructor
  · rw [npInv, detN_eq]
    by_cases h : (toMat m A).det = 0 <;> simp [h]
  · intro M hM i j
    rw [npInv] at hM
    by_cases h : detN m A = 0
    · rw [if_pos h] at hM
      exact absurd hM (by simp)
    · rw [if_neg h] at hM
      have hM' := Option.some_injective _ hM
      rw [← hM']
      show (detN m A)⁻¹ * adjN m A i.val j.val = (toMat m A)⁻¹ i j
      rw [adjN_eq, Matrix.inv_def, Ring.inverse_eq_inv, detN_eq, Matrix.smul_apply,
        smul_eq_mul]

/-! ## Dict lemmas -/

theorem find?_map_replace (d : List (String × α)) (k : String) (v : α)
    (h : d.any (fun p => p.1 = k) = true) :
    (d.map (fun p => if p.1 = k then (k, v) else p)).find? (fun p => p.1 = k) = some (k, v) := by
  induction d with
  | nil => simp at h
  | cons q d ih =>
    by_cases hq : q.1 = k
    · simp [hq]
    · rw [List.map_cons, if_neg hq, List.find?_cons_of_neg _ (by simpa using hq)]
      exact ih (by simpa [hq] using h)

theorem find?_map_replace_ne (d : List (String × α)) (k k' : String) (v : α) (h : k' ≠ k) :
    (d.map (fun p => if p.1 = k then (k, v) else p)).find? (fun p => p.1 = k')
      = d.find? (fun p => p.1 = k') := by
  induction d with
  | nil => rfl
  | cons q d ih =>
    by_cases hq : q.1 = k
    · have hnk : ¬((k, v).1 = k') := fun hh => h hh.symm
      have hq' : ¬q.1 = k' := by rw [hq]; exact fun hh => h hh.symm
      rw [List.map_cons, if_pos hq, List.find?_cons_of_neg _ (by simpa using hnk),
        List.find?_cons_of_neg _ (by simpa using hq'), ih]
    · by_cases hq' : q.1 = k'
      · rw [List.map_cons, if_neg hq, List.find?_cons_of_pos _ (by simpa using hq'),
          List.find?_cons_of_pos _ (by simpa using hq')]
      · rw [List.map_cons, if_neg hq, List.find?_cons_of_neg _ (by simpa using hq'),
          List.find?_cons_of_neg _ (by simpa using hq'), ih]

theorem pyGet_pyInsert_self (d : List (String × α)) (k : String) (v : α) :
    pyGet (pyInsert d k v) k = some v := by
  rw [pyInsert]
  by_cases h : d.any (fun p => p.1 = k)
  · rw [if_pos h, pyGet, find?_map_replace d k v h]
    rfl
  · rw [if_neg h, pyGet, List.find?_append]
    have hnone : d.find? (fun p => p.1 = k) = none := by
      rw [List.find?_eq_none]
      intro p hp
      simp only [decide_eq_true_eq]
      intro hpk
      exact h (List.any_eq_true.mpr ⟨p, hp, by simp [hpk]⟩)
    rw [hnone]
    simp

theorem pyGet_pyInsert_ne (d : List (String × α)) (k k' : String) (v : α) (h : k' ≠ k) :
    pyGet (pyInsert d k v) k' = pyGet d k' := by
  rw [pyInsert]
  by_cases hany : d.any (fun p => p.1 = k)
  · rw [if_pos hany, pyGet, find?_map_replace_ne d k k' v h]
    rfl
  · rw [if_neg hany, pyGet, List.find?_append, pyGet]
    cases hf : d.find? (fun p => p.1 = k') with
    | some p => simp
    | none =>
      have hkk : ¬k = k' := fun hh => h hh.symm
      have : ([(k, v)].find? (fun p => p.1 = k')) = none := by
        simp [List.find?, hkk]
      simp [this]

theorem pyDict_append (l : List (String × α)) (p : String × α) :
    pyDict (l ++ [p]) = pyInsert (pyDict l) p.1 p.2 := by
  rw [pyDict, pyDict, List.foldl_append]
  rfl

/-- Python dict lookup after bulk building: the last assignment wins. -/
theorem pyGet_pyDict (l : List (String × α)) (k : String) :
    pyGet (pyDict l) k = ((l.filter (fun p => p.1 = k)).map (·.2)).getLast? := by
  induction l using List.reverseRecOn with
  | nil => rfl
  | append_singleton l p ih =>
    rw [pyDict_append]
    by_cases h : p.1 = k
    · rw [h, pyGet_pyInsert_self, List.filter_append, List.map_append]
      have hp : List.filter (fun q => q.1 = k) [p] = [p] := by simp [List.filter, h]
      rw [hp]
      simp [List.getLast?_concat]
    · rw [pyGet_pyInsert_ne _ _ _ _ (fun hh => h hh.symm), ih, List.filter_append]
      have hp : List.filter (fun q => q.1 = k) [p] = [] := by simp [List.filter, h]
      rw [hp, List.append_nil]

theorem countKey_eq_count (d : List (String × α)) (k : String) :
    countKey d k = (d.map Prod.fst).count k := by
  induction d with
  | nil => rfl
  | cons p d ih =>
    rw [countKey] at ih ⊢
    by_cases h : p.1 = k
    · rw [List.filter_cons_of_pos (by simpa using h), List.length_cons, ih, List.map_cons,
        List.count_cons]
      simp [h]
    · rw [List.filter_cons_of_neg (by simpa using h), ih, List.map_cons, List.count_cons]
      have hkk : ¬k = p.1 := fun hh => h hh.symm
      simp [hkk]
      exact h

theorem keys_pyInsert (d : List (String × α)) (k : String) (v : α) :
    (pyInsert d k v).map Prod.fst =
      if d.any (fun p => p.1 = k) then d.map Prod.fst else d.map Prod.fst ++ [k] := by
  rw [pyInsert]
  by_cases h : d.any (fun p => p.1 = k)
  · rw [if_pos h, if_pos h, List.map_map]
    refine List.map_congr_left fun p _ => ?_
    by_cases hp : p.1 = k <;> simp [hp]
  · rw [if_neg h, if_neg h, List.map_append]
    rfl

theorem keys_pyDict_nodup (l : List (String × α)) : ((pyDict l).map Prod.fst).Nodup := by
  induction l using List.reverseRecOn with
  | nil => simp [pyDict]
  | append_singleton l p ih =>
    rw [pyDict_append, keys_pyInsert]
    by_cases h : (pyDict l).any (fun q => q.1 = p.1)
    · rwa [if_pos h]
    · rw [if_neg h]
      refine List.Nodup.append ih (List.nodup_singleton _) ?_
      intro a ha hb
      rcases List.mem_singleton.mp hb with rfl
      rcases List.mem_map.mp ha with ⟨q, hq, hqa⟩
      exact h (List.any_eq_true.mpr ⟨q, hq, by simp [hqa]⟩)

theorem mem_keys_pyDict (l : List (String × α)) (k : String) :
    k ∈ (pyDict l).map Prod.fst ↔ k ∈ l.map Prod.fst := by
  induction l using List.reverseRecOn generalizing k with
  | nil => simp [pyDict]
  | append_singleton l p ih =>
    rw [pyDict_append, keys_pyInsert, List.map_append]
    by_cases h : (pyDict l).any (fun q => q.1 = p.1)
    · rw [if_pos h]
      rcases List.any_eq_true.mp h with ⟨q, hq, hqk⟩
      simp only [decide_eq_true_eq] at hqk
      have hp1 : p.1 ∈ l.map Prod.fst := by
        refine (ih p.1).mp ?_
        rw [← hqk]
        exact List.mem_map_of_mem Prod.fst hq
      constructor
      · intro hk
        exact List.mem_append.mpr (Or.inl ((ih k).mp hk))
      · intro hk
        rcases List.mem_append.mp hk with h1 | h1
        · exact (ih k).mpr h1
        · have hk1 : k = p.1 := by simpa using h1
          exact (ih k).mpr (hk1 ▸ hp1)
    · rw [if_neg h, List.mem_append, List.mem_append, ih k]
      simp

/-- Each key occurring in the input occurs exactly once in the dict. -/
theorem countKey_pyDict (l : List (String × α)) (k : String) (h : k ∈ l.map Prod.fst) :
    countKey (pyDict l) k = 1 := by
  rw [countKey_eq_count]
  exact List.count_eq_one_of_mem (keys_pyDict_nodup l) ((mem_keys_pyDict l k).mpr h)

/-- When the input keys are already distinct, dict building keeps the
list unchanged. -/
theorem pyDict_of_nodupKeys (l : List (String × α)) (h : (l.map Prod.fst).Nodup) :
    pyDict l = l := by
  induction l using List.reverseRecOn with
  | nil => rfl
  | append_singleton l p ih =>
    rw [List.map_append] at h
    have h1 := (List.nodup_append.mp h).1
    have h2 := (List.nodup_append.mp h).2.2
    rw [pyDict_append, ih h1, pyInsert, if_neg, ]
    intro hc
    rcases List.any_eq_true.mp hc with ⟨q, hq, hqk⟩
    simp only [decide_eq_true_eq] at hqk
    exact h2 (List.mem_map.mpr ⟨q, hq, hqk⟩) (by simp)

theorem getLast?_of_all_eq {l : List α} {c : α} (hne : l ≠ []) (h : ∀ x ∈ l, x = c) :
    l.getLast? = some c := by
  induction l with
  | nil => exact absurd rfl hne
  | cons a l ih =>
    cases l with
    | nil => simpa using h a (by simp)
    | cons b t =>
      rw [List.getLast?_cons_cons]
      exact ih (by simp) (fun x hx => h x (List.mem_cons_of_mem a hx))

/-- Looking up a dict built from a keyed list of values: the value of the
last matching element wins. -/
theorem pyGet_pyDict_map {β : Type _} (l : List β) (f : β → String) (g : β → α) (k : String) :
    pyGet (pyDict (l.map (fun b => (f b, g b)))) k
      = ((l.filter (fun b => f b = k)).getLast?).map g := by
  rw [pyGet_pyDict, List.filter_map, List.map_map, List.getLast?_map]
  rfl

theorem getLast?_ne_none {l : List α} (h : l ≠ []) : ∃ x, l.getLast? = some x := by
  induction l with
  | nil => exact absurd rfl h
  | cons a l ih =>
    cases l with
    | nil => exact ⟨a, rfl⟩
    | cons b t =>
      rcases ih (by simp) with ⟨x, hx⟩
      exact ⟨x, by rw [List.getLast?_cons_cons, hx]⟩

/-- A dict built from a keyed list of a constant value answers that
value at every key that occurs, duplicates or not. -/
theorem pyGet_pyDict_map_const {β : Type _} (l : List β) (f : β → String) (c : α) (b : β)
    (hb : b ∈ l) :
    pyGet (pyDict (l.map (fun x => (f x, c)))) (f b) = some c := by
  have hne : l.filter (fun x => f x = f b) ≠ [] := by
    intro hh
    have hmem : b ∈ l.filter (fun x => f x = f b) := List.mem_filter.mpr ⟨hb, by simp⟩
    rw [hh] at hmem
    cases hmem
  rcases getLast?_ne_none hne with ⟨x, hx⟩
  rw [pyGet_pyDict_map l f (fun _ => c), hx]
  rfl

/-- Number of dict entries at the key of a list member: exactly one. -/
theorem countKey_pyDict_map {β : Type _} (l : List β) (f : β → String) (g : β → α) (b : β)
    (hb : b ∈ l) :
    countKey (pyDict (l.map (fun x => (f x, g x)))) (f b) = 1 :=
  countKey_pyDict _ _ (by
    rw [List.map_map]
    exact List.mem_map.mpr ⟨b, hb, rfl⟩)

theorem filter_key_of_nodup {β : Type _} (l : List β) (f : β → String) (b : β)
    (hb : b ∈ l) (hnd : (l.map f).Nodup) :
    l.filter (fun x => f x = f b) = [b] := by
  induction l with
  | nil => cases hb
  | cons a l ih =>
    rw [List.map_cons, List.nodup_cons] at hnd
    rcases List.mem_cons.mp hb with rfl | hmem
    · rw [List.filter_cons_of_pos (by simp)]
      have hrest : l.filter (fun x => f x = f b) = [] := by
        rw [List.filter_eq_nil_iff]
        intro x hx
        simp only [decide_eq_true_eq]
        intro hfx
        exact hnd.1 (hfx ▸ List.mem_map_of_mem f hx)
      rw [hrest]
    · have hne : ¬f a = f b := by
        intro hh
        exact hnd.1 (by rw [hh]; exact List.mem_map_of_mem f hmem)
      rw [List.filter_cons_of_neg (by simpa using hne)]
      exact ih hmem hnd.2

/-- When the generated keys are distinct, lookup returns each member's
own value. -/
theorem pyGet_pyDict_map_nodup {β : Type _} (l : List β) (f : β → String) (g : β → α) (b : β)
    (hb : b ∈ l) (hnd : (l.map f).Nodup) :
    pyGet (pyDict (l.map (fun x => (f x, g x)))) (f b) = some (g b) := by
  rw [pyGet_pyDict_map, filter_key_of_nodup l f b hb hnd]
  rfl

/-! ## Fold and sum helpers -/

/-- Evaluating the LMP update loop: starting from `v0` and subtracting
`f l` pointwise for each `l < n` is subtraction of the sum. -/
theorem foldl_sub_eval (f : ℕ → ℕ → ℚ) (v0 : ℕ → ℚ) (n k : ℕ) :
    ((List.range n).foldl (fun v l => fun q => v q - f l q) v0) k
      = v0 k - ∑ l ∈ Finset.range n, f l k := by
  induction n with
  | zero => simp
  | succ n ih =>
    rw [List.range_succ, List.foldl_append, Finset.sum_range_succ]
    show ((List.range n).foldl (fun v l => fun q => v q - f l q) v0) k - f n k = _
    rw [ih]
    ring

/-- A list sum over node names as a `Finset.range` sum over positions. -/
theorem sum_map_eq_range (f : String → ℚ) (ns : List String) :
    (ns.map f).sum = ∑ k ∈ Finset.range ns.length, f (ns.getD k "") := by
  induction ns with
  | nil => simp
  | cons s tl ih =>
    rw [List.map_cons, List.sum_cons, List.length_cons, Finset.sum_range_succ', ih]
    simp only [List.getD_cons_succ, List.getD_cons_zero]
    ring

/-- The value sum of the per-generator inner dict build, before dict
collapsing: a masked sum over node positions. -/
theorem filterMapSum (gen row : ℕ → ℚ) (cond : ℕ → Prop) [DecidablePred cond] :
    ∀ (ns : List String) (t : ℕ),
      ((((List.enumFrom t ns).filterMap (fun p =>
            if cond p.1 then some (p.2, row p.1 * gen p.1) else none)).map (·.2)).sum)
        = ∑ k ∈ Finset.range ns.length,
            (if cond (t + k) then row (t + k) * gen (t + k) else 0) := by
  intro ns
  induction ns with
  | nil => intro t; simp
  | cons s tl ih =>
    intro t
    rw [List.enumFrom_cons, List.filterMap_cons]
    by_cases h : cond t
    · rw [if_pos h, List.map_cons, List.sum_cons,
        List.length_cons, Finset.sum_range_succ', ih (t + 1)]
      simp only [Nat.add_zero, if_pos h]
      rw [add_comm]
      congr 1
      refine Finset.sum_congr rfl fun k _ => ?_
      rw [show t + (k + 1) = t + 1 + k by omega]
    · rw [if_neg h, List.length_cons,
        Finset.sum_range_succ', ih (t + 1)]
      simp only [Nat.add_zero, if_neg h, add_zero]
      refine Finset.sum_congr rfl fun k _ => ?_
      rw [show t + (k + 1) = t + 1 + k by omega]

/-- The keys produced by the generator-flow filterMap form a sublist of
the node names, hence inherit distinctness. -/
theorem filterMap_keys_sublist (gen row : ℕ → ℚ) (cond : ℕ → Prop) [DecidablePred cond] :
    ∀ (ns : List String) (t : ℕ),
      (((List.enumFrom t ns).filterMap (fun p =>
          if cond p.1 then some (p.2, row p.1 * gen p.1) else none)).map Prod.fst).Sublist ns := by
  intro ns
  induction ns with
  | nil => intro t; simp
  | cons s tl ih =>
    intro t
    rw [List.enumFrom_cons, List.filterMap_cons]
    by_cases h : cond t
    · rw [if_pos h, List.map_cons]
      exact List.Sublist.cons₂ s (ih (t + 1))
    · rw [if_neg h]
      exact List.Sublist.cons s (ih (t + 1))

theorem addLine_apply (B : ℕ → ℕ → ℚ) (i j : ℕ) (b : ℚ) (p q : ℕ) :
    addLine B i j b p q = B p q + stencil i j b p q := by
  simp only [addLine, upd, stencil]
  split_ifs <;> ring

theorem foldl_addLine_eval (net : Network) (ls : List Line) :
    ∀ (B : ℕ → ℕ → ℚ) (p q : ℕ),
      (ls.foldl
          (fun B L => addLine B (nodeIdx net L.src) (nodeIdx net L.dst) (1 / L.reactance))
          B) p q
        = B p q + (ls.map (fun L =>
            stencil (nodeIdx net L.src) (nodeIdx net L.dst) (1 / L.reactance) p q)).sum := by
  induction ls with
  | nil => intro B p q; simp
  | cons L ls ih =>
    intro B p q
    rw [List.foldl_cons, ih, List.map_cons, List.sum_cons, addLine_apply]
    ring

/-- The assembled susceptance matrix equals the spec's sum formula. -/
theorem susceptance_eq_spec (net : Network) (p q : ℕ) :
    susceptance net p q = susceptanceSpec net p q := by
  rw [susceptance, susceptanceSpec, foldl_addLine_eval]
  simp

theorem Bred_eq_spec (net : Network) : Bred net = BredSpec net := by
  funext p q
  exact susceptance_eq_spec net (p.val + 1) (q.val + 1)

/-! ## PTDF structure helpers -/

theorem detN_Bred (net : Network) : detN (net.n - 1) (BredF net) = (Bred net).det :=
  detN_eq _ _

theorem buildBinv_col0 (net : Network) (Binv : ℕ → ℕ → ℚ) (h : buildBinv net = .ok Binv) :
    ∀ p, Binv p 0 = 0 := by
  intro p
  rw [buildBinv] at h
  by_cases h1 : 1 < net.n
  · rw [if_pos h1] at h
    cases hinv : npInv (net.n - 1) (BredF net) with
    | none => rw [hinv] at h; cases h
    | some M =>
      rw [hinv] at h
      cases h
      simp [reassemble]
  · rw [if_neg h1] at h
    cases h
    rfl

/-- Shifting every coordinate of the injection by `c` changes the dot
product by `c` times the row sum. -/
theorem dot_shift (n : ℕ) (row x : ℕ → ℚ) (c : ℚ) :
    dot n row (fun k => x k + c) = dot n row x + c * ∑ k ∈ Finset.range n, row k := by
  rw [dot, dot, Finset.mul_sum, ← Finset.sum_add_distrib]
  refine Finset.sum_congr rfl fun k _ => ?_
  ring

/-- Shifting only coordinate 0 leaves the dot product unchanged whenever
the row's entry 0 vanishes. -/
theorem dot_update_slack (n : ℕ) (row x : ℕ → ℚ) (c : ℚ) (h0 : row 0 = 0) :
    dot n row (Function.update x 0 (x 0 + c)) = dot n row x := by
  rw [dot, dot]
  refine Finset.sum_congr rfl fun k _ => ?_
  by_cases hk : k = 0
  · subst hk
    rw [h0]
    ring
  · rw [Function.update_noteq hk]

theorem buildPtdf_ok (net : Network) (h1 : 1 < net.n)
    (h2 : detN (net.n - 1) (BredF net) ≠ 0) :
    buildPtdf net = .ok (buildPtdfD net) := by
  have key : buildPtdf net = .ok (ptdfRows net (reassemble net.n
      (fun i j => (detN (net.n - 1) (BredF net))⁻¹ * adjN (net.n - 1) (BredF net) i j))) := by
    rw [buildPtdf, buildBinv, if_pos h1, npInv, if_neg h2]
    rfl
  rw [key, buildPtdfD, key]
  rfl

theorem solve_ok (net : Network) (lp : LPResult) (P : List (ℕ → ℚ))
    (hP : buildPtdf net = .ok P) : solve net lp = .ok (solveD net lp) := by
  have key : ∃ r, solve net lp = .ok r := ⟨_, by rw [solve, hP]; rfl⟩
  rcases key with ⟨r, hr⟩
  rw [hr, solveD, hr]
  rfl

theorem foldl_scan_filter (costs : ℕ → ℚ) (c1 c2 : ℕ → Prop)
    [DecidablePred c1] [DecidablePred c2] :
    ∀ (l : List ℕ) (m : ℚ),
      l.foldl (fun m i =>
          if c1 i then max m (costs i) else if c2 i then max m (costs i) else m) m
        = ((l.filter (fun i => c1 i ∨ c2 i)).map costs).foldl max m := by
  intro l
  induction l with
  | nil => intro m; rfl
  | cons i l ih =>
    intro m
    rw [List.foldl_cons, List.filter_cons]
    by_cases h1 : c1 i
    · have hd : (decide (c1 i ∨ c2 i)) = true := by simp [h1]
      rw [if_pos h1, if_pos hd, List.map_cons, List.foldl_cons, ih]
    · by_cases h2 : c2 i
      · have hd : (decide (c1 i ∨ c2 i)) = true := by simp [h2]
        rw [if_neg h1, if_pos h2, if_pos hd, List.map_cons, List.foldl_cons, ih]
      · have hd : ¬(decide (c1 i ∨ c2 i)) = true := by simp [h1, h2]
        rw [if_neg h1, if_neg h2, if_neg hd, ih]

theorem foldl_quirk_filter (costs : ℕ → ℚ) (ct : ℕ → Prop) [DecidablePred ct]
    (hc : ∀ i, 0 ≤ costs i) :
    ∀ (l : List ℕ) (m : ℚ), 0 ≤ m →
      l.foldl (fun m i =>
          if ct i then (if m = 0 then costs i else max m (costs i)) else m) m
        = ((l.filter (fun i => ct i)).map costs).foldl max m := by
  intro l
  induction l with
  | nil => intro m _; rfl
  | cons i l ih =>
    intro m hm
    rw [List.foldl_cons, List.filter_cons]
    by_cases h : ct i
    · have hd : (decide (ct i)) = true := by simp [h]
      rw [if_pos h, if_pos hd, List.map_cons, List.foldl_cons]
      by_cases hm0 : m = 0
      · rw [if_pos hm0, hm0, max_eq_right (hc i)]
        exact ih (costs i) (hc i)
      · rw [if_neg hm0]
        exact ih _ (le_trans hm (le_max_left _ _))
    · have hd : ¬(decide (ct i)) = true := by simp [h]
      rw [if_neg h, if_neg hd]
      exact ih m hm

/-! ## Analysis structure helpers -/

theorem bottleneckStep_app (net : Network) (a : Analysis) (node : String) :
    ∃ c d s, bottleneckStep net a node =
      ⟨a.causes ++ c, a.details ++ d, a.suggestions ++ s⟩ := by
  rw [bottleneckStep]
  by_cases h1 : 0 < net.consumption node ∧ net.genCapacity node < net.consumption node
  · rw [if_pos h1]
    by_cases h2 : ((net.lines.filter (fun L => L.dst = node ∨ L.src = node)).foldl
          (fun s L => s + L.capacity) 0) < net.consumption node - net.genCapacity node ∧
        totalDemand net ≤ totalGenCap net
    · rw [if_pos h2]
      exact ⟨_, _, _, rfl⟩
    · rw [if_neg h2]
      exact ⟨[], [], [], by cases a; simp⟩
  · rw [if_neg h1]
    exact ⟨[], [], [], by cases a; simp⟩

theorem foldl_bottleneck_app (net : Network) :
    ∀ (ns : List String) (a : Analysis), ∃ c d s,
      ns.foldl (bottleneckStep net) a = ⟨a.causes ++ c, a.details ++ d, a.suggestions ++ s⟩ := by
  intro ns
  induction ns with
  | nil => intro a; exact ⟨[], [], [], by cases a; simp⟩
  | cons x ns ih =>
    intro a
    rw [List.foldl_cons]
    rcases bottleneckStep_app net a x with ⟨c1, d1, s1, h1⟩
    rcases ih (bottleneckStep net a x) with ⟨c2, d2, s2, h2⟩
    exact ⟨c1 ++ c2, d1 ++ d2, s1 ++ s2, by rw [h2, h1]; simp⟩

/-! ## Claims -/

/-- C5: for every network whose total generation capacity is strictly
below total demand, the infeasibility analysis cites INSUFFICIENT
GENERATION CAPACITY, reports the shortfall (total demand minus total
capacity) in its details, suggests a capacity increase or demand
reduction by that shortfall, and the variant-A dispatch LP as `solve`
formulates it has no feasible point. -/
theorem c5_insufficient_generation (net : Network)
    (h : totalGenCap net < totalDemand net) :
    Cause.insufficientGeneration ∈ (analyzeInfeasibility net).causes ∧
    Detail.shortfall (totalDemand net) (totalGenCap net)
        (totalDemand net - totalGenCap net) ∈ (analyzeInfeasibility net).details ∧
    Suggestion.increaseCapacityOrReduceDemand (totalDemand net - totalGenCap net)
        ∈ (analyzeInfeasibility net).suggestions ∧
    ∀ ptdf, ¬VariantAFeasible net ptdf := by
  have hinf : ∀ ptdf, ¬VariantAFeasible net ptdf := by
    rintro ptdf ⟨g, hbounds, hbal, -⟩
    have hle : (∑ k ∈ Finset.range net.n, g k) ≤ ∑ k ∈ Finset.range net.n, capVec net k :=
      Finset.sum_le_sum fun k hk => (hbounds k (Finset.mem_range.mp hk)).2
    have hcap : (∑ k ∈ Finset.range net.n, capVec net k) = totalGenCap net := by
      rw [totalGenCap, sum_map_eq_range]
      rfl
    rw [hbal, hcap] at hle
    exact absurd (lt_of_le_of_lt hle h) (lt_irrefl _)
  rcases foldl_bottleneck_app net net.nodes ⟨[Cause.insufficientGeneration],
      [Detail.shortfall (totalDemand net) (totalGenCap net)
        (totalDemand net - totalGenCap net)],
      [Suggestion.increaseCapacityOrReduceDemand (totalDemand net - totalGenCap net)]⟩ with
    ⟨c, d, s, hfold⟩
  have ha : analyzeInfeasibility net =
      ⟨Cause.insufficientGeneration :: c,
        Detail.shortfall (totalDemand net) (totalGenCap net)
          (totalDemand net - totalGenCap net) :: d,
        Suggestion.increaseCapacityOrReduceDemand (totalDemand net - totalGenCap net) :: s⟩ := by
    rw [analyzeInfeasibility]
    simp only [if_pos h, hfold]
    rw [if_neg (by simp)]
    rfl
  rw [ha]
  exact ⟨by simp, by simp, by simp, hinf⟩

/-- C5 witness: with capacities 100 and 50 against demand 500, the
shortfall cause is cited and the dispatch is infeasible. -/
theorem c5_insufficient_generation_witness :
    Cause.insufficientGeneration ∈ (analyzeInfeasibility netScar).causes ∧
    Detail.shortfall 500 150 350 ∈ (analyzeInfeasibility netScar).details ∧
    ¬VariantAFeasible netScar (buildPtdfD netScar) := by
  have h : totalGenCap netScar < totalDemand netScar := by
    simp [totalGenCap, totalDemand, netScar]
    norm_num
  have hc := c5_insufficient_generation netScar h
  refine ⟨hc.1, ?_, hc.2.2.2 _⟩
  have h1 : totalDemand netScar = 500 := by
    simp [totalDemand, netScar]
  have h2 : totalGenCap netScar = 150 := by
    simp [totalGenCap, netScar]
    norm_num
  have := hc.2.1
  rw [h1, h2] at this
  norm_num at this
  exact this

/-- C6: whenever removing the slack bus leaves the reduced susceptance
matrix singular, the PTDF build raises the singular-matrix error (it
never returns a PTDF). -/
theorem c6_singular_raises (net : Network) (h1 : 1 < net.n)
    (h2 : (Bred net).det = 0) :
    buildPtdf net = .error .singularMatrix := by
  have hd : detN (net.n - 1) (BredF net) = 0 := by
    rw [detN_Bred]
    exact h2
  rw [buildPtdf, buildBinv, if_pos h1, npInv, if_pos hd]
  rfl

/-- C6 witness: a three-node network whose only line joins A and B
leaves C unreachable; the reduced matrix is singular and the build
raises. -/
theorem c6_singular_raises_witness :
    buildPtdf netDisc = .error .singularMatrix := by
  have h1 : 1 < netDisc.n := by norm_num [Network.n, netDisc]
  have h2 : (Bred netDisc).det = 0 := by
    rw [← detN_Bred]
    simp [detN, subAt, BredF, susceptance, addLine, upd, netDisc, nodeIdx, idxFrom,
      Finset.sum_range_succ]
  exact c6_singular_raises netDisc h1 h2

/-- C7 counterexample: updating a line's length to 0.05 km stores the
clamped length 0.1 km but computes the reactance from the raw argument
(0.00005), so the claimed invariant reactance = stored length * 0.001
fails below the floor. -/
theorem c7_counterexample :
    ((updateLineLength [⟨"A", "B", 1/10, 100, some 100⟩] 0 (1/20)).getD 0 default).length
        = some (1/10) ∧
    ((updateLineLength [⟨"A", "B", 1/10, 100, some 100⟩] 0 (1/20)).getD 0 default).reactance
        = 1/20000 ∧
    ¬((updateLineLength [⟨"A", "B", 1/10, 100, some 100⟩] 0 (1/20)).getD 0 default).reactance
        = ((updateLineLength [⟨"A", "B", 1/10, 100, some 100⟩] 0
              (1/20)).getD 0 default).length.getD 100 * (1/1000) := by
  have hmax : max (1/10 : ℚ) (1/20) = 1/10 := max_eq_left (by norm_num)
  refine ⟨?_, ?_, ?_⟩ <;> simp [updateLineLength, hmax] <;> norm_num

/-- C7 (amended): after `update_line_length` with x ≥ 0.1, the stored
length is x itself and the invariant reactance = stored length * 0.001
holds; for x below the 0.1 floor the stored length is clamped while the
reactance is still computed from the raw x, breaking the invariant. -/
theorem c7_reactance_invariant (lines : List Line) (idx : ℕ) (x : ℚ)
    (h : 1/10 ≤ x) (hidx : idx < lines.length) :
    ((updateLineLength lines idx x).getD idx default).length = some x ∧
    ((updateLineLength lines idx x).getD idx default).reactance
      = ((updateLineLength lines idx x).getD idx default).length.getD 100 * (1/1000) := by
  induction lines generalizing idx with
  | nil => exact absurd hidx (by simp)
  | cons L ls ih =>
    cases idx with
    | zero =>
      constructor
      · show some (max (1/10) x) = some x
        rw [max_eq_right h]
      · show x * (1/1000) = (some (max (1/10) x)).getD 100 * (1/1000)
        rw [max_eq_right h]
        rfl
    | succ n =>
      have hn : n < ls.length := by simpa using hidx
      simpa [updateLineLength] using ih n hn

/-- C7 witness: updating to 0.5 km stores length 0.5 and reactance
0.0005 = 0.5 * 0.001. -/
theorem c7_reactance_invariant_witness :
    ((updateLineLength [⟨"A", "B", 1/10, 100, some 100⟩] 0 (1/2)).getD 0 default).length
        = some (1/2) ∧
    ((updateLineLength [⟨"A", "B", 1/10, 100, some 100⟩] 0 (1/2)).getD 0 default).reactance
      = ((updateLineLength [⟨"A", "B", 1/10, 100, some 100⟩] 0
            (1/2)).getD 0 default).length.getD 100 * (1/1000) :=
  c7_reactance_invariant _ 0 (1/2) (by norm_num) (by norm_num)

/-- C9 counterexample: with node A partially loaded at cost 20 and node
B at capacity at cost 40, `_find_marginal_cost` returns the maximum 40
rather than preferring the partially-loaded generator's 20; and with no
generation it returns 0, not the first node's cost 20. -/
theorem c9_counterexample :
    findMarginalCost netC9 (fun _ => 50) (costVec netC9) = 40 ∧
    claimedFallbackPrice netC9 (fun _ => 50) (costVec netC9) = 20 ∧
    findMarginalCost netC9 (fun _ => 0) (costVec netC9) = 0 ∧
    claimedFallbackPrice netC9 (fun _ => 0) (costVec netC9) = 20 := by
  have hn : netC9.n = 2 := rfl
  have hcap0 : capVec netC9 0 = 100 := by simp [capVec, nodeAt, netC9]
  have hcap1 : capVec netC9 1 = 50 := by simp [capVec, nodeAt, netC9]
  have hcost0 : costVec netC9 0 = 20 := by simp [costVec, nodeAt, netC9]
  have hcost1 : costVec netC9 1 = 40 := by simp [costVec, nodeAt, netC9]
  refine ⟨?_, ?_, ?_, ?_⟩ <;>
    norm_num [findMarginalCost, claimedFallbackPrice, hn, hcap0, hcap1, hcost0, hcost1,
      List.range_succ]

/-- C9 (amended): for nonnegative costs, the fallback energy price is
the maximum cost over generators that are partially loaded or at
capacity (above the 0.01 threshold), and when that maximum is 0, the
maximum cost over nodes with generation above 0.01 — never the first
node's cost. -/
theorem c9_marginal_cost_characterization (net : Network) (gen costs : ℕ → ℚ)
    (hc : ∀ i, 0 ≤ costs i) :
    findMarginalCost net gen costs = marginalCostAmended net gen costs := by
  simp only [findMarginalCost, marginalCostAmended]
  rw [foldl_scan_filter costs
      (fun i => 0 < gen i ∧ gen i < capVec net i - 1/100)
      (fun i => capVec net i - 1/100 ≤ gen i ∧ 1/100 < gen i) (List.range net.n) 0,
    foldl_quirk_filter costs (fun i => 1/100 < gen i) hc (List.range net.n) 0 le_rfl]

/-- C9 witness: the characterization applied to the two-node example. -/
theorem c9_marginal_cost_characterization_witness :
    findMarginalCost netC9 (fun _ => 50) (costVec netC9)
      = marginalCostAmended netC9 (fun _ => 50) (costVec netC9) :=
  c9_marginal_cost_characterization netC9 (fun _ => 50) (costVec netC9) (by
    intro i
    simp only [costVec, nodeAt, netC9]
    split_ifs <;> norm_num)

/-- C1 counterexample: with duals available (μ_upper 1 and μ_lower 0 on
the single line, λ = 5, PTDF entry −1 at node B) the code computes LMP
6 at node B while the claimed additive formula λ + congestion gives 4. -/
theorem c1_counterexample :
    calcLmp net2 lpC1 (buildPtdfD net2) (costVec net2) 1 = 6 ∧
    energyLam net2 lpC1 (costVec net2)
        + congestionSum net2.lines.length [1, 0] (buildPtdfD net2) 1 = 4 := by
  constructor <;>
    simp [calcLmp, lpC1, energyLam, congestionSum, buildPtdfD, buildPtdf, buildBinv, npInv,
      detN, subAt, adjN, BredF, susceptance, addLine, upd, Network.n, net2, nodeIdx, idxFrom,
      reassemble, ptdfRows, Except.map, Except.toOption, List.getD, Finset.sum_range_succ,
      List.range_succ] <;> norm_num

/-- C1 (amended): with inequality duals available, the code's LMP at
every node is the energy price minus the congestion sum
Σ (μ_upper − μ_lower)·PTDF[l][n] — the congestion contributions are
subtracted, not added. -/
theorem c1_lmp_subtracts_congestion (net : Network) (r : LPResult)
    (ptdf : List (ℕ → ℚ)) (costs : ℕ → ℚ) (marg : List ℚ)
    (hm : r.ineqMarginals = some marg) (k : ℕ) :
    calcLmp net r ptdf costs k
      = energyLam net r costs - congestionSum net.lines.length marg ptdf k := by
  simp only [calcLmp, hm]
  rw [congestionSum]
  exact foldl_sub_eval
    (fun l q => (marg.getD l 0 - marg.getD (net.lines.length + l) 0)
      * (ptdf.getD l (fun _ => 0)) q)
    (fun _ => energyLam net r costs) net.lines.length k

/-- C1 witness: the subtraction formula applied at a concrete input. -/
theorem c1_lmp_subtracts_congestion_witness :
    calcLmp net2 lpC1 [] (costVec net2) 0
      = energyLam net2 lpC1 (costVec net2) - congestionSum net2.lines.length [1, 0] [] 0 :=
  c1_lmp_subtracts_congestion net2 lpC1 [] (costVec net2) [1, 0] rfl 0

/-- C3 counterexample: on the two-node network (A generates 50, B
consumes 50) the reported flow on line A→B is 50, but the per-generator
contributions sum to 0 — the decomposition tracks only generation and
misses the consumption side, far beyond any solver tolerance. -/
theorem c3_counterexample :
    pyGet (solveD net2 lpOk).flows "A→B" = some 50 ∧
    dictValuesSum ((pyGet (solveD net2 lpOk).generatorFlows "A→B").getD []) = 0 := by
  constructor <;>
    simp [solveD, solve, lineId, calcGeneratorFlows, genFlowRow, pyDict, pyInsert, pyGet,
      dictValuesSum, dot, consVec, nodeAt, lpOk, buildPtdf, buildBinv, npInv, detN, subAt,
      adjN, BredF, susceptance, addLine, upd, Network.n, net2, nodeIdx, idxFrom, reassemble,
      ptdfRows, Except.map, Except.toOption, List.getD, Finset.sum_range_succ, List.enum,
      List.enumFrom, List.find?, List.filterMap] <;> norm_num

/-- C3 (amended): the per-generator contributions for a PTDF row sum to
PTDF row · generation, which equals the reported total flow (PTDF row ·
(generation − consumption)) plus PTDF row · consumption — provided node
names are distinct and every node's generation is 0 or above the 0.01
threshold. The consumption term is what the claim's "sums to the total
flow" misses. -/
theorem c3_generator_flows_sum (net : Network) (gen row : ℕ → ℚ)
    (hnd : net.nodes.Nodup) (hthr : ∀ k < net.n, gen k = 0 ∨ 1/100 < gen k) :
    dictValuesSum (genFlowRow net gen row)
      = dot net.n row (fun k => gen k - consVec net k) + dot net.n row (consVec net) := by
  have hkeys : (((List.enumFrom 0 net.nodes).filterMap (fun p =>
      if 1/100 < gen p.1 then some (p.2, row p.1 * gen p.1) else none)).map Prod.fst).Nodup :=
    (filterMap_keys_sublist gen row (fun i => 1/100 < gen i) net.nodes 0).nodup hnd
  have henum : net.nodes.enum = List.enumFrom 0 net.nodes := rfl
  rw [genFlowRow, henum, pyDict_of_nodupKeys _ hkeys, dictValuesSum,
    filterMapSum gen row (fun i => 1/100 < gen i) net.nodes 0]
  rw [dot, dot, ← Finset.sum_add_distrib]
  refine Finset.sum_congr rfl fun k hk => ?_
  simp only [Nat.zero_add]
  rcases hthr k (Finset.mem_range.mp hk) with h | h
  · rw [if_neg (by rw [h]; norm_num), h]
    ring
  · rw [if_pos h]
    ring

/-- C3 witness: the corrected sum identity at a concrete input. -/
theorem c3_generator_flows_sum_witness :
    dictValuesSum (genFlowRow net2 (fun k => if k = 0 then 50 else 0) (fun _ => 1))
      = dot net2.n (fun _ => 1)
          (fun k => (if k = 0 then (50:ℚ) else 0) - consVec net2 k)
        + dot net2.n (fun _ => 1) (consVec net2) := by
  refine c3_generator_flows_sum net2 _ _ (by decide) ?_
  intro k hk
  rcases k with - | - | n
  · right; norm_num
  · left; norm_num
  · exact absurd hk (by norm_num [Network.n, net2])

theorem buildPtdfD_eq (net : Network) (h1 : 1 < net.n)
    (h2 : detN (net.n - 1) (BredF net) ≠ 0) :
    buildPtdfD net = ptdfRows net (reassemble net.n
      (fun i j => (detN (net.n - 1) (BredF net))⁻¹ * adjN (net.n - 1) (BredF net) i j)) := by
  rw [buildPtdfD, buildPtdf, buildBinv, if_pos h1, npInv, if_neg h2]
  rfl

/-- C8 counterexample: on the two-node network the built PTDF row is
(0, −1): its row sum is −1, and shifting every node's net injection by
the constant 1 changes the computed line flow from 50 to 49, so
translation invariance fails. -/
theorem c8_counterexample :
    dot net2.n ((buildPtdfD net2).getD 0 (fun _ => 0))
        (fun k => if k = 0 then (50:ℚ) else -50) = 50 ∧
    dot net2.n ((buildPtdfD net2).getD 0 (fun _ => 0))
        (fun k => (if k = 0 then (50:ℚ) else -50) + 1) = 49 ∧
    (∑ k ∈ Finset.range net2.n, ((buildPtdfD net2).getD 0 (fun _ => 0)) k) = -1 := by
  refine ⟨?_, ?_, ?_⟩ <;>
    simp [dot, buildPtdfD, buildPtdf, buildBinv, npInv, detN, subAt, adjN, BredF,
      susceptance, addLine, upd, Network.n, net2, nodeIdx, idxFrom, reassemble, ptdfRows,
      Except.map, Except.toOption, List.getD, Finset.sum_range_succ] <;> norm_num

/-- C8 (amended): every successfully built PTDF row has a zero slack
column (entry 0), so flows are invariant under shifting the slack
node's injection alone; a uniform shift of all injections by c changes
the flow by c times the row sum, which need not vanish. -/
theorem c8_translation (net : Network) (P : List (ℕ → ℚ)) (hP : buildPtdf net = .ok P)
    (row : ℕ → ℚ) (hrow : row ∈ P) :
    row 0 = 0 ∧
    (∀ x c, dot net.n row (fun k => x k + c)
        = dot net.n row x + c * ∑ k ∈ Finset.range net.n, row k) ∧
    (∀ x c, dot net.n row (Function.update x 0 (x 0 + c)) = dot net.n row x) := by
  have h0 : row 0 = 0 := by
    rw [buildPtdf] at hP
    cases hB : buildBinv net with
    | error e => rw [hB] at hP; cases hP
    | ok Binv =>
      rw [hB] at hP
      simp only [Except.map] at hP
      cases hP
      rcases List.mem_map.mp hrow with ⟨L, hL, hrowL⟩
      rw [← hrowL]
      show (1 / L.reactance) * (Binv (nodeIdx net L.src) 0 - Binv (nodeIdx net L.dst) 0) = 0
      rw [buildBinv_col0 net Binv hB, buildBinv_col0 net Binv hB]
      ring
  exact ⟨h0, fun x c => dot_shift _ _ _ _, fun x c => dot_update_slack _ _ _ _ h0⟩

/-- C8 witness: on the two-node network the built row's slack entry is
0 and a shift of the slack injection by 5 leaves the flow unchanged. -/
theorem c8_translation_witness :
    ((buildPtdfD net2).getD 0 (fun _ => 0)) 0 = 0 ∧
    dot net2.n ((buildPtdfD net2).getD 0 (fun _ => 0))
        (Function.update (fun _ => (0:ℚ)) 0 ((fun _ => (0:ℚ)) 0 + 5))
      = dot net2.n ((buildPtdfD net2).getD 0 (fun _ => 0)) (fun _ => 0) := by
  have h1 : 1 < net2.n := by norm_num [Network.n, net2]
  have h2 : detN (net2.n - 1) (BredF net2) ≠ 0 := by
    simp [detN, subAt, BredF, susceptance, addLine, upd, Network.n, net2, nodeIdx, idxFrom,
      Finset.sum_range_succ]
  have hP := buildPtdf_ok net2 h1 h2
  have hlen : 0 < (buildPtdfD net2).length := by
    rw [buildPtdfD_eq net2 h1 h2, ptdfRows]
    simp [net2]
  have hmem : (buildPtdfD net2).getD 0 (fun _ => 0) ∈ buildPtdfD net2 := by
    rw [List.getD_eq_getElem _ _ hlen]
    exact List.getElem_mem _
  have hc := c8_translation net2 _ hP _ hmem
  exact ⟨hc.1, hc.2.2 (fun _ => 0) 5⟩

/-- C2: for every network with more than one node whose reduced
susceptance matrix is invertible, the built PTDF matrix is exactly the
spec's algorithm output: B assembled per line by the four stencil
updates, row and column 0 deleted, the remainder inverted (standard
matrix inverse) and reassembled with zero row/column 0, and
PTDF[l][n] = (1/reactance_l) * (B_inv[i][n] - B_inv[j][n]). -/
theorem c2_ptdf_matches_spec (net : Network) (h1 : 1 < net.n)
    (h2 : (BredSpec net).det ≠ 0) :
    buildPtdf net = .ok (ptdfSpecRows net) := by
  have hdet : detN (net.n - 1) (BredF net) ≠ 0 := by
    rw [detN_Bred, Bred_eq_spec]
    exact h2
  have hnp : npInv (net.n - 1) (BredF net)
      = some (fun i j => (detN (net.n - 1) (BredF net))⁻¹
          * adjN (net.n - 1) (BredF net) i j) := by
    rw [npInv, if_neg hdet]
  have hR : ∀ p q, reassemble net.n
      (fun i j => (detN (net.n - 1) (BredF net))⁻¹ * adjN (net.n - 1) (BredF net) i j) p q
      = BinvSpec net p q := by
    intro p q
    rw [reassemble, BinvSpec]
    by_cases h : 0 < p ∧ p < net.n ∧ 0 < q ∧ q < net.n
    · rw [if_pos h, dif_pos h]
      have hfin1 : p - 1 < net.n - 1 := by omega
      have hfin2 : q - 1 < net.n - 1 := by omega
      have hval := (npInv_eq (net.n - 1) (BredF net)).2 _ hnp ⟨p - 1, hfin1⟩ ⟨q - 1, hfin2⟩
      rw [show (toMat (net.n - 1) (BredF net)) = BredSpec net from Bred_eq_spec net] at hval
      exact hval
    · rw [if_neg h, dif_neg h]
  rw [buildPtdf, buildBinv, if_pos h1, hnp]
  show Except.ok (ptdfRows net (reassemble net.n
      (fun i j => (detN (net.n - 1) (BredF net))⁻¹ * adjN (net.n - 1) (BredF net) i j)))
    = Except.ok (ptdfSpecRows net)
  congr 1
  rw [ptdfRows, ptdfSpecRows]
  refine List.map_congr_left fun L _ => ?_
  funext k
  rw [hR, hR]

/-- C2 witness: the reference three-node ring has an invertible reduced
matrix and its PTDF build matches the spec algorithm. -/
theorem c2_ptdf_matches_spec_witness :
    buildPtdf net3 = .ok (ptdfSpecRows net3) := by
  have h1 : 1 < net3.n := by norm_num [Network.n, net3]
  have h2 : (BredSpec net3).det ≠ 0 := by
    rw [← Bred_eq_spec, ← detN_Bred]
    simp [detN, subAt, BredF, susceptance, addLine, upd, Network.n, net3, nodeIdx, idxFrom,
      Finset.sum_range_succ]
    norm_num
  exact c2_ptdf_matches_spec net3 h1 h2

/-- C4: whenever the LP reports no feasible solution, `solve` returns a
result (rather than raising) with feasible false, LMP 0 and generation
0 at every node, flow 0 and empty generator contributions on every
line, total cost 0, the infeasibility analysis attached, and each
line's capacity and length echoed. -/
theorem c4_infeasible_result (net : Network) (lp : LPResult) (P : List (ℕ → ℚ))
    (r : SolveResult) (hs : lp.success = false) (hP : buildPtdf net = .ok P)
    (hnd : (net.lines.map lineId).Nodup) (hr : solve net lp = .ok r) :
    r.feasible = false ∧ r.totalCost = 0 ∧
    r.analysis = some (analyzeInfeasibility net) ∧
    (∀ s ∈ net.nodes, pyGet r.lmp s = some 0 ∧ pyGet r.generation s = some 0) ∧
    (∀ L ∈ net.lines,
      pyGet r.flows (lineId L) = some 0 ∧
      pyGet r.generatorFlows (lineId L) = some [] ∧
      pyGet r.capacities (lineId L) = some L.capacity ∧
      pyGet r.lengths (lineId L) = some (L.length.getD 100)) := by
  rw [solve, hP] at hr
  simp only [Except.map, hs, Bool.false_eq_true, if_false] at hr
  cases hr
  refine ⟨rfl, rfl, rfl, ?_, ?_⟩
  · intro s hmem
    exact ⟨pyGet_pyDict_map_const net.nodes (fun x => x) 0 s hmem,
      pyGet_pyDict_map_const net.nodes (fun x => x) 0 s hmem⟩
  · intro L hmem
    exact ⟨pyGet_pyDict_map_const net.lines lineId 0 L hmem,
      pyGet_pyDict_map_const net.lines lineId [] L hmem,
      pyGet_pyDict_map_nodup net.lines lineId (fun L2 => L2.capacity) L hmem hnd,
      pyGet_pyDict_map_nodup net.lines lineId (fun L2 => L2.length.getD 100) L hmem hnd⟩

/-- C4 witness: the forced-scarcity network under an unsuccessful LP
outcome yields the zeroed, analysis-carrying result. -/
theorem c4_infeasible_result_witness :
    (solveD netScar lpFail).feasible = false ∧
    (solveD netScar lpFail).totalCost = 0 ∧
    (solveD netScar lpFail).analysis = some (analyzeInfeasibility netScar) ∧
    pyGet (solveD netScar lpFail).lmp "C" = some 0 ∧
    pyGet (solveD netScar lpFail).capacities (lineId ⟨"A", "B", 1/10, 100, some 100⟩)
      = some 100 ∧
    pyGet (solveD netScar lpFail).lengths (lineId ⟨"A", "B", 1/10, 100, some 100⟩)
      = some 100 := by
  have h1 : 1 < netScar.n := by norm_num [Network.n, netScar]
  have h2 : detN (netScar.n - 1) (BredF netScar) ≠ 0 := by
    simp [detN, subAt, BredF, susceptance, addLine, upd, Network.n, netScar, nodeIdx,
      idxFrom, Finset.sum_range_succ]
    norm_num
  have hP := buildPtdf_ok netScar h1 h2
  have hr := solve_ok netScar lpFail _ hP
  have hc := c4_infeasible_result netScar lpFail _ (solveD netScar lpFail) rfl hP
    (by decide) hr
  refine ⟨hc.1, hc.2.1, hc.2.2.1, ?_, ?_, ?_⟩
  · exact (hc.2.2.2.1 "C" (by simp [netScar])).1
  · exact (hc.2.2.2.2 ⟨"A", "B", 1/10, 100, some 100⟩ (by simp [netScar])).2.2.1
  · exact (hc.2.2.2.2 ⟨"A", "B", 1/10, 100, some 100⟩ (by simp [netScar])).2.2.2

theorem exists_mem_enumFrom : ∀ (l : List α) (a : α), a ∈ l →
    ∀ t, ∃ i, (i, a) ∈ List.enumFrom t l := by
  intro l
  induction l with
  | nil => intro a h; cases h
  | cons b tl ih =>
    intro a h t
    rcases List.mem_cons.mp h with rfl | hmem
    · exact ⟨t, by rw [List.enumFrom_cons]; exact List.mem_cons_self _ _⟩
    · rcases ih a hmem (t + 1) with ⟨i, hi⟩
      exact ⟨i, by rw [List.enumFrom_cons]; exact List.mem_cons_of_mem _ hi⟩

/-- C10: the flows, capacities, lengths and generator_flows dicts are
keyed by the formatted "from→to" string, so for each line the dicts
hold exactly one entry per distinct (from, to) pair, and the value
stored under a key is the one computed from the last line carrying that
key — two distinct parallel lines collapse to one entry with the later
line's values. -/
theorem c10_line_dicts_last_wins (net : Network) (lp : LPResult) (P : List (ℕ → ℚ))
    (r : SolveResult) (hs : lp.success = true) (hP : buildPtdf net = .ok P)
    (hr : solve net lp = .ok r) (L : Line) (hL : L ∈ net.lines) :
    countKey r.flows (lineId L) = 1 ∧ countKey r.capacities (lineId L) = 1 ∧
    countKey r.lengths (lineId L) = 1 ∧ countKey r.generatorFlows (lineId L) = 1 ∧
    pyGet r.capacities (lineId L)
      = ((net.lines.filter (fun L2 => lineId L2 = lineId L)).getLast?).map
          (fun L2 => L2.capacity) ∧
    pyGet r.lengths (lineId L)
      = ((net.lines.filter (fun L2 => lineId L2 = lineId L)).getLast?).map
          (fun L2 => L2.length.getD 100) ∧
    pyGet r.flows (lineId L)
      = (((net.lines.enum).filter (fun p => lineId p.2 = lineId L)).getLast?).map
          (fun p => dot net.n (P.getD p.1 (fun _ => 0)) (fun k => lp.x k - consVec net k)) ∧
    pyGet r.generatorFlows (lineId L)
      = (((net.lines.enum).filter (fun p => lineId p.2 = lineId L)).getLast?).map
          (fun p => genFlowRow net lp.x (P.getD p.1 (fun _ => 0))) := by
  rw [solve, hP] at hr
  simp only [Except.map, hs, if_true] at hr
  cases hr
  rcases exists_mem_enumFrom net.lines L hL 0 with ⟨i, hiL⟩
  have hid : lineId L = (fun p : ℕ × Line => lineId p.2) (i, L) := rfl
  refine ⟨?_, ?_, ?_, ?_, ?_, ?_, ?_, ?_⟩
  · rw [hid]
    exact countKey_pyDict_map net.lines.enum (fun p => lineId p.2) _ (i, L) hiL
  · exact countKey_pyDict_map net.lines lineId (fun L2 => L2.capacity) L hL
  · exact countKey_pyDict_map net.lines lineId (fun L2 => L2.length.getD 100) L hL
  · rw [hid]
    exact countKey_pyDict_map net.lines.enum (fun p => lineId p.2) _ (i, L) hiL
  · exact pyGet_pyDict_map net.lines lineId (fun L2 => L2.capacity) (lineId L)
  · exact pyGet_pyDict_map net.lines lineId (fun L2 => L2.length.getD 100) (lineId L)
  · exact pyGet_pyDict_map net.lines.enum (fun p => lineId p.2) _ (lineId L)
  · exact pyGet_pyDict_map net.lines.enum (fun p => lineId p.2) _ (lineId L)

/-- C10 witness: two distinct parallel A→B lines collapse to a single
dict entry carrying the second line's capacity and length. -/
theorem c10_line_dicts_last_wins_witness :
    countKey (solveD netDup lpOk).capacities (lineId ⟨"A", "B", 1, 100, some 100⟩) = 1 ∧
    pyGet (solveD netDup lpOk).capacities (lineId ⟨"A", "B", 1, 100, some 100⟩)
      = some 60 ∧
    pyGet (solveD netDup lpOk).lengths (lineId ⟨"A", "B", 1, 100, some 100⟩)
      = some 50 := by
  have h1 : 1 < netDup.n := by norm_num [Network.n, netDup]
  have h2 : detN (netDup.n - 1) (BredF netDup) ≠ 0 := by
    simp [detN, subAt, BredF, susceptance, addLine, upd, Network.n, netDup, nodeIdx,
      idxFrom, Finset.sum_range_succ]
  have hP := buildPtdf_ok netDup h1 h2
  have hr := solve_ok netDup lpOk _ hP
  have hc := c10_line_dicts_last_wins netDup lpOk _ (solveD netDup lpOk) rfl hP hr
    ⟨"A", "B", 1, 100, some 100⟩ (by simp [netDup])
  have hfilter : netDup.lines.filter
      (fun L2 => lineId L2 = lineId ⟨"A", "B", 1, 100, some 100⟩)
      = [⟨"A", "B", 1, 100, some 100⟩, ⟨"A", "B", 1, 60, some 50⟩] := by
    simp [netDup, lineId]
  refine ⟨hc.2.1, ?_, ?_⟩
  · rw [hc.2.2.2.2.1, hfilter]
    rfl
  · rw [hc.2.2.2.2.2.1, hfilter]
    rfl

end LMP
